import Mathlib

/-!
Shallow embedding of the partitioning and checkpoint-resumption core of
`src/src/utils.py` (distributed samplers `DistributedWeightedSampler`,
`DistributedSequenceSampler`, `DistributedGroupSampler`, and
`restart_from_checkpoint`), together with proofs settling the frozen claims
about that code.

Conventions of the embedding:
  - Python lists of dataset indices become `List Nat`.
  - Python exceptions become `Except String` results; the error string names
    the Python exception class that would be raised.
  - The numpy generator `np.random.default_rng(seed + epoch)` is a pure
    function of its seed; its draw operations are modelled by explicit
    function parameters (`draw` for `choice(..., replace=True, p=...)`,
    `pick` for `choice(..., replace=False)`), applied to the seed value
    `seed + epoch`, so the embedding makes the absence of any dependence on
    ambient global RNG state syntactically visible.
  - Fields inherited from torch `DistributedSampler` (`total_size`,
    `num_samples`) are computed exactly as in torch:
    `num_samples = ceil(N / num_replicas)` (or `ceil((N - num_replicas) /
    num_replicas)` when `drop_last` and `num_replicas` does not divide `N`),
    `total_size = num_samples * num_replicas`.
-/

set_option autoImplicit false

namespace RRL

/-- Python slice `l[:i]` for an `Int` bound `i`: a non-negative bound keeps the
first `i` elements; a negative bound drops the last `-i` elements. -/
def pyTake (l : List Nat) (i : Int) : List Nat :=
  if 0 ≤ i then l.take i.toNat else l.take (l.length - (-i).toNat)

/-- Python extended slice `l[start : stop : step]` for non-negative `start`,
`stop` and positive `step`: the elements at positions `start, start + step,
...` strictly below `min stop l.length`. -/
def pySliceStep (l : List Nat) (start stop step : Nat) : List Nat :=
  (List.range ((min stop l.length - start + step - 1) / step)).map
    (fun k => l.getD (start + k * step) 0)

/-- Ceiling division `ceil(a / b)` on naturals. -/
def ceilDivN (a b : Nat) : Nat := (a + b - 1) / b

/-- The `num_samples` field computed by torch `DistributedSampler.__init__`:
`ceil((N - W) / W)` when `drop_last` holds and `W` does not divide `N`,
otherwise `ceil(N / W)`. -/
def numSamplesOf (N W : Nat) (dropLast : Bool) : Nat :=
  if dropLast ∧ N % W ≠ 0 then ceilDivN (N - W) W else ceilDivN N W

/-- The `total_size` field of torch `DistributedSampler`:
`num_samples * num_replicas`. -/
def totalSizeOf (N W : Nat) (dropLast : Bool) : Nat :=
  numSamplesOf N W dropLast * W

/-- The shared padding/truncation step of `DistributedWeightedSampler.__iter__`
(utils.py lines 296-306) and `DistributedGroupSampler.__iter__` (lines
361-371).  When `drop_last` is false and `padding_size` exceeds
`len(indices)`, the source executes
`indices += (indices * math.ceil(padding_size / len(indices)))[:padding_size]`
— but `math` is never imported in `src/src/utils.py`, so reaching that branch
raises `NameError`. -/
def normalizeIndices (indices : List Nat) (totalSize : Nat) (dropLast : Bool) :
    Except String (List Nat) :=
  if dropLast then
    Except.ok (indices.take totalSize)
  else
    let paddingSize : Int := (totalSize : Int) - (indices.length : Int)
    if paddingSize ≤ (indices.length : Int) then
      Except.ok (indices ++ pyTake indices paddingSize)
    else
      Except.error "NameError"

/-- Modelled from the spec: the ceiling-repetition padding branch as the
source intends it (`math.ceil` is referenced on utils.py line 302 but the
`math` module is never imported, so the actual code cannot execute this
branch).  When padding exceeds the raw length, append
`(indices * ceil(padding / len)) [:padding]`. -/
def normalizeIndicesSpec (indices : List Nat) (totalSize : Nat)
    (dropLast : Bool) : List Nat :=
  if dropLast then
    indices.take totalSize
  else
    let paddingSize := totalSize - indices.length
    if paddingSize ≤ indices.length then
      indices ++ indices.take paddingSize
    else
      indices ++
        (List.flatten (List.replicate (ceilDivN paddingSize indices.length)
          indices)).take paddingSize

/-- The tail of both `__iter__` bodies after the raw draw: normalization,
the `assert len(indices) == self.total_size`, the rank-stride subsample
`indices[self.rank : self.total_size : self.num_replicas]`, and the
`assert len(indices) == self.num_samples`. -/
def samplerPostProcess (raw : List Nat)
    (rank totalSize numReplicas numSamples : Nat) (dropLast : Bool) :
    Except String (List Nat) :=
  match normalizeIndices raw totalSize dropLast with
  | Except.error e => Except.error e
  | Except.ok indices =>
    if indices.length = totalSize then
      let sub := pySliceStep indices rank totalSize numReplicas
      if sub.length = numSamples then Except.ok sub
      else Except.error "AssertionError"
    else Except.error "AssertionError"

/-- `DistributedWeightedSampler.__iter__` (utils.py lines 291-312).
`draw s N p` models `np.random.default_rng(s).choice(N, size=N,
replace=True, p).tolist()`; `weights = none` models `self.weights is None`
(never set), which numpy accepts as uniform sampling.  No check of
`self.weights` appears anywhere in the class. -/
def weightedIter (draw : Nat → Nat → Option (List Rat) → List Nat)
    (seed epoch N rank numReplicas : Nat) (weights : Option (List Rat))
    (dropLast : Bool) : Except String (List Nat) :=
  let indices := draw (seed + epoch) N weights
  samplerPostProcess indices rank (totalSizeOf N numReplicas dropLast)
    numReplicas (numSamplesOf N numReplicas dropLast) dropLast

/-- `DistributedWeightedSampler.__iter__` with the process-global numpy RNG
state threaded explicitly.  The body constructs a fresh generator
`np.random.default_rng(self.seed + self.epoch)` and never reads or writes
the global state, so the state is passed through unchanged. -/
def weightedIterWithGlobalRng (draw : Nat → Nat → Option (List Rat) → List Nat)
    (globalRngState : Nat) (seed epoch N rank numReplicas : Nat)
    (weights : Option (List Rat)) (dropLast : Bool) :
    Except String (List Nat) × Nat :=
  (weightedIter draw seed epoch N rank numReplicas weights dropLast,
   globalRngState)

/-- `DistributedSequenceSampler.__iter__` (utils.py lines 323-330):
`idx = np.arange(N)`, `per_size = N // num_replicas + 1`,
`indices = idx[rank * per_size : (rank + 1) * per_size]`. -/
def sequenceIter (N numReplicas rank : Nat) : List Nat :=
  let perSize := N / numReplicas + 1
  ((List.range N).drop (rank * perSize)).take perSize

/-- The Sequential Contiguous Policy as the claim states it: block size
`ceil(N / worldSize)`, rank `r` receives
`Universe[r * blockSize : (r + 1) * blockSize]`. -/
def sequenceIterSpec (N numReplicas rank : Nat) : List Nat :=
  ((List.range N).drop (rank * ceilDivN N numReplicas)).take
    (ceilDivN N numReplicas)

/-- The precondition assert of `DistributedGroupSampler.__init__`
(utils.py line 345): `assert self.batch_size % self.n_groups_per_batch == 0`. -/
def groupInit (nGroupsPerBatch batchSize : Nat) : Except String Unit :=
  if batchSize % nGroupsPerBatch = 0 then Except.ok ()
  else Except.error "AssertionError"

/-- The inner loop of `DistributedGroupSampler.__iter__` (utils.py lines
356-358): for each chosen group id, draw `batch_size // n_groups_per_batch`
members without replacement from that group and append them.  `pick` models
the seeded generator `g.choice(population, count, replace=False)`: its first
argument is a call counter distinguishing successive draws from the stream;
it returns `none` exactly when numpy would raise `ValueError`
(`count` larger than the population). -/
def pickGroupMembers (pick : Nat → List Nat → Nat → Option (List Nat))
    (groupIndices : List (List Nat)) (memberCount : Nat) :
    Nat → List Nat → Except String (List Nat × Nat)
  | s, [] => Except.ok ([], s)
  | s, gid :: gids =>
    match pick s (groupIndices.getD gid []) memberCount with
    | none => Except.error "ValueError"
    | some index =>
      match pickGroupMembers pick groupIndices memberCount (s + 1) gids with
      | Except.error e => Except.error e
      | Except.ok (rest, s1) => Except.ok (index ++ rest, s1)

/-- The outer loop of `DistributedGroupSampler.__iter__` (utils.py lines
353-358), run for `nBatches` iterations: draw `n_groups_per_batch` distinct
group ids without replacement from `np.arange(len(group_indices))`, then the
members of each chosen group. -/
def groupBatches (pick : Nat → List Nat → Nat → Option (List Nat))
    (groupIndices : List (List Nat)) (nGroupsPerBatch memberCount : Nat) :
    Nat → Nat → Except String (List Nat × Nat)
  | 0, s => Except.ok ([], s)
  | m + 1, s =>
    match pick s (List.range groupIndices.length) nGroupsPerBatch with
    | none => Except.error "ValueError"
    | some gids =>
      match pickGroupMembers pick groupIndices memberCount (s + 1) gids with
      | Except.error e => Except.error e
      | Except.ok (batch, s1) =>
        match groupBatches pick groupIndices nGroupsPerBatch memberCount m s1 with
        | Except.error e => Except.error e
        | Except.ok (rest, s2) => Except.ok (batch ++ rest, s2)

/-- The pre-stride index list of `DistributedGroupSampler.__iter__` (utils.py
lines 349-358): `np.array(self.groupsize).sum() // self.batch_size` batches,
where `groupsize = [len(var) for var in self.group_indices]`. -/
def groupIterRaw (pick : Nat → List Nat → Nat → Option (List Nat))
    (groupIndices : List (List Nat)) (nGroupsPerBatch batchSize : Nat) :
    Except String (List Nat) :=
  match groupBatches pick groupIndices nGroupsPerBatch
      (batchSize / nGroupsPerBatch)
      ((groupIndices.map List.length).sum / batchSize) 0 with
  | Except.error e => Except.error e
  | Except.ok (indices, _) => Except.ok indices

/-- `DistributedGroupSampler.__iter__` in full (utils.py lines 346-378):
the seeded stream is `np.random.default_rng(self.seed + self.epoch)`,
modelled by `pick (seed + epoch)`; the tail is the shared normalization and
rank striding, with `total_size` and `num_samples` computed by torch
`DistributedSampler` from `len(self.dataset) = datasetLen`. -/
def groupIter (pick : Nat → Nat → List Nat → Nat → Option (List Nat))
    (groupIndices : List (List Nat))
    (nGroupsPerBatch batchSize seed epoch datasetLen rank numReplicas : Nat)
    (dropLast : Bool) : Except String (List Nat) :=
  match groupIterRaw (pick (seed + epoch)) groupIndices nGroupsPerBatch
      batchSize with
  | Except.error e => Except.error e
  | Except.ok raw =>
    samplerPostProcess raw rank (totalSizeOf datasetLen numReplicas dropLast)
      numReplicas (numSamplesOf datasetLen numReplicas dropLast) dropLast

/-- Inverse striding: reassemble a full list of length `total` from per-rank
slices, placing rank `p % W`, offset `p / W` at position `p` — equivalently,
rank `r` at offset `k` lands at position `r + k * W`. -/
def reassemble (W total : Nat) (slices : Nat → List Nat) : List Nat :=
  (List.range total).map (fun p => (slices (p % W)).getD (p / W) 0)

/-- The checkpoint-search loop of `restart_from_checkpoint` (utils.py lines
168-171): `for ckp_path in ckp_paths: if os.path.isfile(ckp_path): break`.
Returns the value of the loop variable after the loop — the first existing
path, or the last candidate when none exists — and `none` when the list is
empty and the variable is never bound. -/
def loopLastPath (ex : String → Bool) : List String → Option String
  | [] => none
  | [p] => some p
  | p :: q :: rest => if ex p then some p else loopLastPath ex (q :: rest)

/-- Checkpoint resolution in `restart_from_checkpoint` (utils.py lines
168-176): after the search loop, `if not os.path.isfile(ckp_path): return`.
`Except.ok (some p)` is a located checkpoint, `Except.ok none` is the
non-fatal NotFound return, and an empty candidate list raises
`UnboundLocalError` because the loop variable was never assigned. -/
def restartResolve (ex : String → Bool) (paths : List String) :
    Except String (Option String) :=
  match loopLastPath ex paths with
  | none => Except.error "UnboundLocalError"
  | some p => if ex p then Except.ok (some p) else Except.ok none

/-- Result of one call `value.load_state_dict(...)` on a live component:
success, a `TypeError` (the signature does not accept `strict`), or a
structural-incompatibility error (`StateLoadError` in the taxonomy of the
specification). -/
inductive LoadBehavior
  | ok
  | typeError
  | loadError
deriving DecidableEq, Repr

/-- A live component, described by the outcome of loading the snapshot
sub-state for its key leniently (`strict=False`) and strictly (default). -/
structure Component where
  loadLenient : LoadBehavior
  loadStrict : LoadBehavior
deriving DecidableEq, Repr

/-- Per-component outcome reported by the restore loop. -/
inductive Outcome
  | restored
  | skipped
deriving DecidableEq, Repr

/-- The try/except of `restart_from_checkpoint` (utils.py lines 190-197):
attempt `load_state_dict(checkpoint[key], strict=False)`; only a `TypeError`
falls back to `load_state_dict(checkpoint[key])`; any failure of the fallback
— and any non-`TypeError` failure of the lenient attempt — propagates as a
fatal error. -/
def loadOne (c : Component) : Except String Outcome :=
  match c.loadLenient with
  | LoadBehavior.ok => Except.ok Outcome.restored
  | LoadBehavior.loadError => Except.error "StateLoadError"
  | LoadBehavior.typeError =>
    match c.loadStrict with
    | LoadBehavior.ok => Except.ok Outcome.restored
    | _ => Except.error "StateLoadError"

/-- The component-restore loop of `restart_from_checkpoint` (utils.py lines
188-204): for each `(key, value)` of `kwargs` in order, a key absent from
the checkpoint or a `None` component is skipped with a warning; otherwise the
sub-state is loaded.  A fatal load error aborts the loop: the error value
records the outcomes already produced and the failing key. -/
def restoreComponents (inCkpt : String → Bool) :
    List (String × Option Component) →
    Except (List (String × Outcome) × String) (List (String × Outcome))
  | [] => Except.ok []
  | (key, comp) :: rest =>
    match comp with
    | none =>
      match restoreComponents inCkpt rest with
      | Except.error (os, k) => Except.error ((key, Outcome.skipped) :: os, k)
      | Except.ok os => Except.ok ((key, Outcome.skipped) :: os)
    | some c =>
      if inCkpt key then
        match loadOne c with
        | Except.error _ => Except.error ([], key)
        | Except.ok o =>
          match restoreComponents inCkpt rest with
          | Except.error (os, k) => Except.error ((key, o) :: os, k)
          | Except.ok os => Except.ok ((key, o) :: os)
      else
        match restoreComponents inCkpt rest with
        | Except.error (os, k) => Except.error ((key, Outcome.skipped) :: os, k)
        | Except.ok os => Except.ok ((key, Outcome.skipped) :: os)

/-- Contract of numpy `Generator.choice(population, count, replace=False)`,
as documented: it succeeds exactly when `count` does not exceed the
population size, and a successful draw is `count` elements taken at distinct
positions of the population (a sub-permutation). -/
def PickContract (pick : Nat → List Nat → Nat → Option (List Nat)) : Prop :=
  (∀ s pop k, (pick s pop k).isSome ↔ k ≤ pop.length) ∧
  (∀ s pop k l, pick s pop k = some l →
    l.length = k ∧ List.Subperm l pop)

/-- A concrete chooser satisfying `PickContract`: take the first `k` elements
of the population when possible. -/
def pickTake (s : Nat) (pop : List Nat) (k : Nat) : Option (List Nat) :=
  if k ≤ pop.length then some (pop.take k) else none

/-- A synthesized batch of the Group-Balanced Batch Policy: a concatenation
of `n` segments, one per chosen group id, the ids pairwise distinct and in
range, each segment consisting of `k` distinct members of its group. -/
def IsBalancedBatch (gi : List (List Nat)) (n k : Nat) (batch : List Nat) :
    Prop :=
  ∃ gids : List Nat, ∃ segs : List (List Nat),
    gids.length = n ∧ gids.Nodup ∧ (∀ g ∈ gids, g < gi.length) ∧
    segs.length = n ∧ batch = segs.flatten ∧
    ∀ i, i < n →
      (segs.getD i []).length = k ∧ (segs.getD i []).Nodup ∧
      ∀ x ∈ segs.getD i [], x ∈ gi.getD (gids.getD i 0) []

/-- The run-variable reload of `restart_from_checkpoint` (utils.py lines
207-210): `for var_name in run_variables: if var_name in checkpoint:
run_variables[var_name] = checkpoint[var_name]`, on a mapping modelled as an
association list. -/
def reloadRunVariables {α : Type} (ckpt : String → Option α)
    (runVars : List (String × α)) : List (String × α) :=
  runVars.map (fun kv =>
    match ckpt kv.1 with
    | some v => (kv.1, v)
    | none => kv)

/-! ### Helper lemmas -/

theorem le_ceilDivN_mul (a b : Nat) (hb : 0 < b) : a ≤ ceilDivN a b * b := by
  unfold ceilDivN
  have h1 : a + b - 1 < ((a + b - 1) / b + 1) * b :=
    (Nat.div_lt_iff_lt_mul hb).mp (by omega)
  have h2 : ((a + b - 1) / b + 1) * b = (a + b - 1) / b * b + b := by ring
  omega

theorem ceilDivN_mul_le (a b : Nat) : ceilDivN a b * b ≤ a + b - 1 :=
  Nat.div_mul_le_self (a + b - 1) b

theorem ceilDivN_mul_self (a b : Nat) (hb : 0 < b) (hd : a % b = 0) :
    ceilDivN a b * b = a := by
  obtain ⟨q, hq⟩ : ∃ q, a = q * b := by
    refine ⟨a / b, ?_⟩
    have h1 := Nat.mod_add_div a b
    have h2 : a / b * b = b * (a / b) := by ring
    omega
  subst hq
  unfold ceilDivN
  have h1 : q * b + b - 1 = (b - 1) + q * b := by omega
  rw [h1, Nat.add_mul_div_right _ _ hb, Nat.div_eq_of_lt (by omega)]
  ring

theorem totalSizeOf_false_ge (N W : Nat) (hW : 0 < W) :
    N ≤ totalSizeOf N W false := by
  unfold totalSizeOf numSamplesOf
  simpa using le_ceilDivN_mul N W hW

theorem totalSizeOf_false_le (N W : Nat) : totalSizeOf N W false ≤ N + W - 1 := by
  unfold totalSizeOf numSamplesOf
  simpa using ceilDivN_mul_le N W

theorem totalSizeOf_true_le (N W : Nat) (hW : 0 < W) :
    totalSizeOf N W true ≤ N := by
  by_cases h : N % W = 0
  · simp only [totalSizeOf, numSamplesOf, h, ne_eq, not_true_eq_false,
      and_false, if_false]
    exact (ceilDivN_mul_self N W hW h).le
  · simp only [totalSizeOf, numSamplesOf, h, ne_eq, not_false_eq_true,
      and_true, if_true, true_and]
    rcases Nat.lt_or_ge N W with hNW | hNW
    · have h0 : N - W = 0 := by omega
      have h1 : ceilDivN (N - W) W = 0 := by
        unfold ceilDivN
        rw [h0]
        exact Nat.div_eq_of_lt (by omega)
      simp [h1]
    · have h1 := ceilDivN_mul_le (N - W) W
      omega

theorem pySliceStep_length (l : List Nat) (q W r : Nat) (hW : 0 < W)
    (hr : r < W) (hl : l.length = q * W) :
    (pySliceStep l r (q * W) W).length = q := by
  simp only [pySliceStep, List.length_map, List.length_range, hl, min_self]
  apply Nat.div_eq_of_lt_le
  · omega
  · have h : (q + 1) * W = q * W + W := by ring
    omega

theorem pySliceStep_getD (l : List Nat) (q W r k : Nat) (hW : 0 < W)
    (hr : r < W) (hl : l.length = q * W) (hk : k < q) :
    (pySliceStep l r (q * W) W).getD k 0 = l.getD (r + k * W) 0 := by
  have hlen := pySliceStep_length l q W r hW hr hl
  have hk2 : k < (pySliceStep l r (q * W) W).length := by omega
  rw [List.getD_eq_getElem _ _ hk2]
  simp only [pySliceStep] at hk2 ⊢
  rw [List.getElem_map, List.getElem_range]

theorem stride_pos_inj (W r k r2 k2 : Nat) (hW : 0 < W) (hr : r < W)
    (hr2 : r2 < W) (h : r + k * W = r2 + k2 * W) : r = r2 ∧ k = k2 := by
  have h1 : (r + k * W) % W = r := by
    rw [Nat.add_mul_mod_self_right, Nat.mod_eq_of_lt hr]
  have h2 : (r2 + k2 * W) % W = r2 := by
    rw [Nat.add_mul_mod_self_right, Nat.mod_eq_of_lt hr2]
  have hrr : r = r2 := by rw [← h1, ← h2, h]
  refine ⟨hrr, ?_⟩
  have h3 : k * W = k2 * W := by omega
  exact Nat.eq_of_mul_eq_mul_right hW h3

theorem reassemble_strides (l : List Nat) (q W : Nat) (hW : 0 < W)
    (hl : l.length = q * W) :
    reassemble W (q * W) (fun r => pySliceStep l r (q * W) W) = l := by
  apply List.ext_getElem
  · simp [reassemble, hl]
  · intro p h1 h2
    simp only [reassemble, List.length_map, List.length_range] at h1
    simp only [reassemble, List.getElem_map, List.getElem_range]
    have hp : p < q * W := by simpa using h1
    have hmod : p % W < W := Nat.mod_lt _ hW
    have hdiv : p / W < q := by
      rw [Nat.div_lt_iff_lt_mul hW]
      omega
    rw [pySliceStep_getD l q W (p % W) (p / W) hW hmod hl hdiv]
    have hsum : p % W + p / W * W = p := by
      have := Nat.mod_add_div p W
      have h4 : p / W * W = W * (p / W) := by ring
      omega
    rw [hsum, List.getD_eq_getElem _ _ (by omega)]

theorem normalizeIndices_pad (raw : List Nat) (total : Nat)
    (h1 : raw.length ≤ total) (h2 : total ≤ 2 * raw.length) :
    normalizeIndices raw total false =
      Except.ok (raw ++ raw.take (total - raw.length)) ∧
    (raw ++ raw.take (total - raw.length)).length = total := by
  constructor
  · simp only [normalizeIndices, Bool.false_eq_true, if_false, pyTake]
    rw [if_pos (by omega : ((total : Int) - (raw.length : Int)) ≤ (raw.length : Int)),
      if_pos (by omega : (0 : Int) ≤ (total : Int) - (raw.length : Int))]
    have h3 : ((total : Int) - (raw.length : Int)).toNat = total - raw.length := by
      omega
    rw [h3]
  · simp only [List.length_append, List.length_take]
    omega

theorem normalizeIndices_overflow (raw : List Nat) (total : Nat)
    (h : 2 * raw.length < total) :
    normalizeIndices raw total false = Except.error "NameError" := by
  simp only [normalizeIndices, Bool.false_eq_true, if_false]
  rw [if_neg (by omega : ¬ ((total : Int) - (raw.length : Int)) ≤ (raw.length : Int))]

theorem normalizeIndices_truncate (raw : List Nat) (total : Nat)
    (h : total ≤ raw.length) :
    normalizeIndices raw total true = Except.ok (raw.take total) ∧
    (raw.take total).length = total := by
  refine ⟨rfl, ?_⟩
  simp only [List.length_take]
  omega

theorem samplerPostProcess_ok (raw norm : List Nat) (rank q W : Nat)
    (dl : Bool) (hW : 0 < W) (hr : rank < W)
    (hn : normalizeIndices raw (q * W) dl = Except.ok norm)
    (hlen : norm.length = q * W) :
    samplerPostProcess raw rank (q * W) W q dl =
      Except.ok (pySliceStep norm rank (q * W) W) := by
  unfold samplerPostProcess
  rw [hn]
  have hs := pySliceStep_length norm q W rank hW hr hlen
  simp [hlen, hs]

theorem weightedIter_run (draw : Nat → Nat → Option (List Rat) → List Nat)
    (seed epoch N rank W : Nat) (w : Option (List Rat)) (dl : Bool)
    (hW : 0 < W) (hWN : W ≤ N) (hr : rank < W)
    (hdraw : (draw (seed + epoch) N w).length = N) :
    ∃ norm : List Nat,
      normalizeIndices (draw (seed + epoch) N w) (totalSizeOf N W dl) dl =
        Except.ok norm ∧
      norm.length = totalSizeOf N W dl ∧
      weightedIter draw seed epoch N rank W w dl =
        Except.ok (pySliceStep norm rank (totalSizeOf N W dl) W) := by
  cases dl with
  | false =>
    have hge := totalSizeOf_false_ge N W hW
    have hle := totalSizeOf_false_le N W
    have hp := normalizeIndices_pad (draw (seed + epoch) N w)
      (totalSizeOf N W false) (by omega) (by omega)
    refine ⟨_, hp.1, hp.2, ?_⟩
    unfold weightedIter
    exact samplerPostProcess_ok _ _ rank (numSamplesOf N W false) W false
      hW hr hp.1 hp.2
  | true =>
    have hle := totalSizeOf_true_le N W hW
    have hp := normalizeIndices_truncate (draw (seed + epoch) N w)
      (totalSizeOf N W true) (by omega)
    refine ⟨_, hp.1, hp.2, ?_⟩
    unfold weightedIter
    exact samplerPostProcess_ok _ _ rank (numSamplesOf N W true) W true
      hW hr hp.1 hp.2

/-! ### Claim theorems -/

/-- Claim C2: for fixed `(seed, epoch, universe, weights, rank, worldSize)`,
the Weighted Replacement Policy is deterministic — its output is the same
across any two invocations, independent of the ambient global RNG state,
which it also leaves untouched: the body seeds a fresh generator from
`seed + epoch` and never consults the global state. -/
theorem c2_weighted_determinism
    (draw : Nat → Nat → Option (List Rat) → List Nat)
    (seed epoch N rank numReplicas : Nat) (weights : Option (List Rat))
    (dropLast : Bool) (g1 g2 : Nat) :
    (weightedIterWithGlobalRng draw g1 seed epoch N rank numReplicas weights
        dropLast).1 =
      (weightedIterWithGlobalRng draw g2 seed epoch N rank numReplicas weights
        dropLast).1 ∧
    (weightedIterWithGlobalRng draw g1 seed epoch N rank numReplicas weights
        dropLast).2 = g1 :=
  ⟨rfl, rfl⟩

/-- Claim C4, counterexample: the code uses block size `N // worldSize + 1`,
not `ceil(N / worldSize)`.  At `N = 4, worldSize = 2` the two differ: the
code gives rank 0 the slice `[0, 1, 2]` while the claim predicts `[0, 1]`. -/
theorem c4_counterexample :
    sequenceIter 4 2 0 = [0, 1, 2] ∧
    sequenceIterSpec 4 2 0 = [0, 1] ∧
    sequenceIter 4 2 0 ≠ sequenceIterSpec 4 2 0 := by
  decide

/-- Claim C4, amended: the Sequential Contiguous Policy assigns rank `r` the
contiguous slice of the universe starting at `r * blockSize` with
`blockSize = N / worldSize + 1` — which equals `ceil(N / worldSize)` exactly
when `worldSize` does not divide `N`.  For `N = 10, worldSize = 3` the ranks
receive `[0..3]`, `[4..7]`, `[8..9]`. -/
theorem c4_sequence_blocks (N W r : Nat) (hW : 0 < W) :
    (sequenceIter N W r).length =
      min (N / W + 1) (N - r * (N / W + 1)) ∧
    (∀ k, k < (sequenceIter N W r).length →
      (sequenceIter N W r).getD k 0 = r * (N / W + 1) + k) ∧
    (¬ W ∣ N → N / W + 1 = ceilDivN N W) ∧
    sequenceIter 10 3 0 = [0, 1, 2, 3] ∧
    sequenceIter 10 3 1 = [4, 5, 6, 7] ∧
    sequenceIter 10 3 2 = [8, 9] := by
  refine ⟨?_, ?_, ?_, by decide, by decide, by decide⟩
  · simp [sequenceIter]
  · intro k hk
    have hk2 : k < (sequenceIter N W r).length := hk
    rw [List.getD_eq_getElem _ _ hk2]
    simp only [sequenceIter] at hk2 ⊢
    rw [List.getElem_take, List.getElem_drop, List.getElem_range]
  · intro hdvd
    have hs0 : N % W ≠ 0 := fun h => hdvd (Nat.dvd_of_mod_eq_zero h)
    have hq := Nat.mod_add_div N W
    have hlt : N % W < W := Nat.mod_lt _ hW
    unfold ceilDivN
    symm
    apply Nat.div_eq_of_lt_le
    · have e1 : (N / W + 1) * W = W * (N / W) + W := by ring
      omega
    · have e2 : (N / W + 1 + 1) * W = W * (N / W) + W + W := by ring
      omega

/-- Claim C4, witness: the amended theorem applied at `N = 10, W = 3,
rank = 1` yields the concrete slice `[4, 5, 6, 7]`. -/
theorem c4_witness : 0 < 3 ∧ sequenceIter 10 3 1 = [4, 5, 6, 7] :=
  ⟨by decide, (c4_sequence_blocks 10 3 1 (by decide)).2.2.2.2.1⟩

/-- Claim C6, counterexample: invoking the Weighted Replacement Policy with
weights never set (`weights = none`, i.e. `self.weights is None`) does not
fail — it returns an index sequence.  Here the drawn sequence is
`[0, 1, 2, 3]` and rank 0 of 2 receives `[0, 2]`. -/
theorem c6_counterexample :
    weightedIter (fun _ n _ => List.range n) 0 0 4 0 2 none false =
      Except.ok [0, 2] := rfl

/-- Claim C6, amended: the Weighted Replacement Policy performs no check of
its weights: invoked before any `set_weights` call it passes
`p = self.weights = None` to the generator, which numpy treats as uniform
sampling, and the call succeeds with a full-length per-rank index sequence
instead of raising a `PreconditionError`. -/
theorem c6_weights_never_set_silently_uniform
    (draw : Nat → Nat → Option (List Rat) → List Nat)
    (seed epoch N rank W : Nat) (dl : Bool)
    (hW : 0 < W) (hWN : W ≤ N) (hr : rank < W)
    (hdraw : (draw (seed + epoch) N none).length = N) :
    ∃ out : List Nat,
      weightedIter draw seed epoch N rank W none dl = Except.ok out ∧
      out.length = numSamplesOf N W dl := by
  obtain ⟨norm, h1, h2, h3⟩ :=
    weightedIter_run draw seed epoch N rank W none dl hW hWN hr hdraw
  exact ⟨_, h3, pySliceStep_length norm (numSamplesOf N W dl) W rank hW hr h2⟩

/-- Claim C6, witness: the amended theorem applied at `N = 4, worldSize = 2,
rank = 0` with a concrete draw. -/
theorem c6_witness :
    (0 < 2 ∧ 2 ≤ 4 ∧ (0 : Nat) < 2 ∧
      ((fun (_ : Nat) (n : Nat) (_ : Option (List Rat)) => List.range n)
        (0 + 0) 4 none).length = 4) ∧
    ∃ out : List Nat,
      weightedIter (fun _ n _ => List.range n) 0 0 4 0 2 none false =
        Except.ok out ∧
      out.length = numSamplesOf 4 2 false :=
  ⟨⟨by decide, by decide, by decide, rfl⟩,
   c6_weights_never_set_silently_uniform (fun _ n _ => List.range n)
     0 0 4 0 2 false (by decide) (by decide) (by decide) rfl⟩

/-- Claim C8: for every non-empty ordered candidate list, the checkpoint
resolution step of `restart_from_checkpoint` returns the first existing
candidate, and returns the non-fatal NotFound result (`Except.ok none`,
never an error) when no candidate exists. -/
theorem c8_checkpoint_resolution (ex : String → Bool) (paths : List String)
    (h : paths ≠ []) :
    restartResolve ex paths = Except.ok (List.find? ex paths) ∧
    ∀ e, restartResolve ex paths ≠ Except.error e := by
  have main : ∀ ps : List String, ps ≠ [] →
      restartResolve ex ps = Except.ok (List.find? ex ps) := by
    intro ps
    induction ps with
    | nil => intro h2; exact absurd rfl h2
    | cons p rest ih =>
      intro _
      cases rest with
      | nil =>
        by_cases hp : ex p
        · simp [restartResolve, loopLastPath, List.find?, hp]
        · simp [restartResolve, loopLastPath, List.find?, hp]
      | cons p2 rest2 =>
        by_cases hp : ex p
        · simp [restartResolve, loopLastPath, List.find?, hp]
        · have heq : restartResolve ex (p :: p2 :: rest2) =
              restartResolve ex (p2 :: rest2) := by
            simp [restartResolve, loopLastPath, hp]
          rw [heq, ih (by simp)]
          have hfind : List.find? ex (p :: p2 :: rest2) =
              List.find? ex (p2 :: rest2) := by
            simp [List.find?, hp]
          rw [hfind]
  refine ⟨main paths h, ?_⟩
  intro e he
  rw [main paths h] at he
  cases he

/-- Claim C8, witness: with candidates `[A, B, C]` of which only `B` and `C`
exist, resolution returns `B`. -/
theorem c8_witness :
    ((["A", "B", "C"] : List String) ≠ []) ∧
    restartResolve (fun s => s == "B" || s == "C") ["A", "B", "C"] =
      Except.ok (some "B") :=
  ⟨by decide,
   ((c8_checkpoint_resolution (fun s => s == "B" || s == "C")
     ["A", "B", "C"] (by decide)).1).trans rfl⟩

/-- Claim C9: after the run-variable reload of `restart_from_checkpoint`,
every entry of the caller-supplied mapping keeps its key; its value is the
snapshot value if its key is present in the snapshot, and the untouched
caller-supplied default otherwise.  No entries are added or removed. -/
theorem c9_run_variables {α : Type} (ckpt : String → Option α)
    (runVars : List (String × α)) (d : String × α) :
    (reloadRunVariables ckpt runVars).length = runVars.length ∧
    ∀ i, i < runVars.length →
      ((reloadRunVariables ckpt runVars).getD i d).1 = (runVars.getD i d).1 ∧
      ((reloadRunVariables ckpt runVars).getD i d).2 =
        (ckpt (runVars.getD i d).1).getD (runVars.getD i d).2 := by
  have hlen : (reloadRunVariables ckpt runVars).length = runVars.length := by
    simp [reloadRunVariables]
  refine ⟨hlen, ?_⟩
  intro i hi
  have hi2 : i < (reloadRunVariables ckpt runVars).length := by omega
  rw [List.getD_eq_getElem _ _ hi2, List.getD_eq_getElem _ _ hi]
  simp only [reloadRunVariables, List.getElem_map]
  cases hck : ckpt (runVars[i].1) <;> simp [hck]

/-- Claim C9, witness: with snapshot holding `epoch = 7` and defaults
`epoch = 5, best = 1`, the reload sets `epoch` to 7 and leaves `best` at 1. -/
theorem c9_witness :
    (0 : Nat) < 2 ∧
    ((reloadRunVariables
        (fun k => if k == "epoch" then some (7 : Int) else none)
        [("epoch", (5 : Int)), ("best", 1)]).getD 0 ("", 0)).2 = 7 ∧
    ((reloadRunVariables
        (fun k => if k == "epoch" then some (7 : Int) else none)
        [("epoch", (5 : Int)), ("best", 1)]).getD 1 ("", 0)).2 = 1 :=
  ⟨by decide,
   (((c9_run_variables
       (fun k => if k == "epoch" then some (7 : Int) else none)
       [("epoch", (5 : Int)), ("best", 1)] ("", 0)).2 0 (by decide)).2).trans
     rfl,
   (((c9_run_variables
       (fun k => if k == "epoch" then some (7 : Int) else none)
       [("epoch", (5 : Int)), ("best", 1)] ("", 0)).2 1 (by decide)).2).trans
     rfl⟩

/-- Claim C10: called with an empty candidate list, checkpoint resolution
does not return the non-fatal NotFound result — the loop variable is never
bound and the subsequent existence check raises `UnboundLocalError`. -/
theorem c10_empty_candidate_list (ex : String → Bool) :
    restartResolve ex [] = Except.error "UnboundLocalError" ∧
    ∀ found : Option String, restartResolve ex [] ≠ Except.ok found := by
  refine ⟨rfl, ?_⟩
  intro found h
  cases h

/-- Claim C3: the padding branch that appends a plain prefix works and the
`N = 10, worldSize = 3` examples hold, and the spec-intended
ceiling-repetition padding always yields length `totalSize`; but the actual
code raises `NameError` whenever the padding amount exceeds the raw length,
because `math` is never imported in `src/src/utils.py` — e.g. at the
reachable input `raw = [0]` (dataset size 1), `totalSize = 3`
(worldSize 3, no truncation). -/
theorem c3_normalizer_missing_math_import (raw : List Nat) (total : Nat)
    (hne : raw ≠ []) (hle : raw.length ≤ total) :
    (total ≤ 2 * raw.length →
      normalizeIndices raw total false =
        Except.ok (raw ++ raw.take (total - raw.length)) ∧
      (raw ++ raw.take (total - raw.length)).length = total) ∧
    (2 * raw.length < total →
      normalizeIndices raw total false = Except.error "NameError") ∧
    (normalizeIndicesSpec raw total false).length = total ∧
    normalizeIndices (List.range 10) 12 false =
      Except.ok (List.range 10 ++ [0, 1]) ∧
    normalizeIndices (List.range 10) 9 true = Except.ok (List.range 9) ∧
    normalizeIndices [0] 3 false = Except.error "NameError" := by
  refine ⟨fun h => normalizeIndices_pad raw total hle h,
    fun h => normalizeIndices_overflow raw total h, ?_, rfl, rfl, rfl⟩
  by_cases hcase : total - raw.length ≤ raw.length
  · simp only [normalizeIndicesSpec, Bool.false_eq_true, if_false,
      if_pos hcase, List.length_append, List.length_take]
    omega
  · have hpos : 0 < raw.length := List.length_pos.mpr hne
    simp only [normalizeIndicesSpec, Bool.false_eq_true, if_false,
      if_neg hcase, List.length_append, List.length_take,
      List.length_flatten, List.map_replicate, List.sum_replicate,
      smul_eq_mul]
    have hceil := le_ceilDivN_mul (total - raw.length) raw.length hpos
    omega

/-- Claim C3, witness: the theorem applied at the failing input `raw = [0]`,
`totalSize = 3`: the actual code raises `NameError`. -/
theorem c3_witness :
    normalizeIndices [0] 3 false = Except.error "NameError" :=
  (c3_normalizer_missing_math_import [0] 3 (by decide) (by decide)).2.1
    (by decide)

/-- Claim C7, counterexample: restore isolation does not hold for components
that come after the failing one.  With the live components ordered
`[optimizer, model]`, where optimizer's sub-state is incompatible even under
lenient-then-strict loading and model's is valid, the fatal error raised at
optimizer aborts the loop before model is processed: no outcome for model is
produced, contradicting the claim for this mapping. -/
theorem c7_counterexample :
    restoreComponents (fun _ => true)
      [("optimizer",
        some { loadLenient := LoadBehavior.typeError,
               loadStrict := LoadBehavior.loadError }),
       ("model",
        some { loadLenient := LoadBehavior.ok,
               loadStrict := LoadBehavior.ok })] =
      Except.error ([], "optimizer") := rfl

/-- Claim C7, amended: a fatal `StateLoadError` aborts the restore loop, so
isolation holds only for the components iterated before the failing one:
their outcomes are produced (and their completed restorations stand), the
error is attributed to the failing component, and later components are not
processed.  In particular, with components ordered `[model, optimizer]`,
model valid and optimizer incompatible, model is restored and unaffected and
the error is attributed specifically to optimizer. -/
theorem c7_fatal_error_aborts_restore_loop (inCkpt : String → Bool)
    (pre post : List (String × Option Component)) (key : String)
    (c : Component) (os : List (String × Outcome))
    (hpre : restoreComponents inCkpt pre = Except.ok os)
    (hk : inCkpt key = true)
    (hfail : loadOne c = Except.error "StateLoadError") :
    restoreComponents inCkpt (pre ++ (key, some c) :: post) =
      Except.error (os, key) ∧
    restoreComponents (fun _ => true)
      [("model", some { loadLenient := LoadBehavior.ok,
                        loadStrict := LoadBehavior.ok }),
       ("optimizer", some { loadLenient := LoadBehavior.typeError,
                            loadStrict := LoadBehavior.loadError })] =
      Except.error ([("model", Outcome.restored)], "optimizer") := by
  refine ⟨?_, rfl⟩
  induction pre generalizing os with
  | nil =>
    have hos : os = [] := by
      simpa [restoreComponents] using hpre.symm
    subst hos
    simp [restoreComponents, hk, hfail]
  | cons hd rest ih =>
    obtain ⟨k0, comp⟩ := hd
    cases comp with
    | none =>
      simp only [restoreComponents, List.cons_append, List.append_eq] at hpre ⊢
      cases hrest : restoreComponents inCkpt rest with
      | error e =>
        rw [hrest] at hpre
        cases hpre
      | ok os2 =>
        rw [hrest] at hpre
        injection hpre with h2
        subst h2
        rw [ih os2 hrest]
    | some c0 =>
      by_cases hik : inCkpt k0
      · cases hlo : loadOne c0 with
        | error e =>
          simp only [restoreComponents, List.cons_append, hik, if_true,
            hlo] at hpre
          cases hpre
        | ok o =>
          simp only [restoreComponents, List.cons_append, List.append_eq,
            hik, if_true, hlo] at hpre ⊢
          cases hrest : restoreComponents inCkpt rest with
          | error e =>
            rw [hrest] at hpre
            cases hpre
          | ok os2 =>
            rw [hrest] at hpre
            injection hpre with h2
            subst h2
            rw [ih os2 hrest]
      · simp only [restoreComponents, List.cons_append, List.append_eq, hik,
          Bool.false_eq_true, if_false] at hpre ⊢
        cases hrest : restoreComponents inCkpt rest with
        | error e =>
          rw [hrest] at hpre
          cases hpre
        | ok os2 =>
          rw [hrest] at hpre
          injection hpre with h2
          subst h2
          rw [ih os2 hrest]

/-- Claim C7, witness: the amended theorem applied with
`pre = [model (valid)]`, failing key `optimizer`. -/
theorem c7_witness :
    (restoreComponents (fun _ => true)
        [("model", some { loadLenient := LoadBehavior.ok,
                          loadStrict := LoadBehavior.ok })] =
      Except.ok [("model", Outcome.restored)] ∧
     loadOne { loadLenient := LoadBehavior.typeError,
               loadStrict := LoadBehavior.loadError } =
       Except.error "StateLoadError") ∧
    restoreComponents (fun _ => true)
      ([("model", some { loadLenient := LoadBehavior.ok,
                         loadStrict := LoadBehavior.ok })] ++
        ("optimizer", some { loadLenient := LoadBehavior.typeError,
                             loadStrict := LoadBehavior.loadError }) :: []) =
      Except.error ([("model", Outcome.restored)], "optimizer") :=
  ⟨⟨rfl, rfl⟩,
   (c7_fatal_error_aborts_restore_loop (fun _ => true)
     [("model", some { loadLenient := LoadBehavior.ok,
                       loadStrict := LoadBehavior.ok })] [] "optimizer"
     { loadLenient := LoadBehavior.typeError,
       loadStrict := LoadBehavior.loadError }
     [("model", Outcome.restored)] rfl rfl rfl).1⟩

/-- Claim C1: the pre-stride sequences of the Weighted Replacement Policy and
the Group-Balanced Batch Policy are rank-independent (the generator is seeded
from `seed + epoch` only), each rank receives exactly the stride
`norm[rank : totalSize : worldSize]` of the normalized list, and reassembling
the per-rank outputs by inverse striding — rank r, offset k, to position
`r + k * worldSize` — reconstructs the full normalized index list, with the
position map injective, so every position is covered exactly once and no
position is produced by two ranks. -/
theorem c1_inverse_striding_reconstructs
    (draw : Nat → Nat → Option (List Rat) → List Nat)
    (pick : Nat → Nat → List Nat → Nat → Option (List Nat))
    (seed epoch N W : Nat) (w : Option (List Rat)) (dl : Bool)
    (gi : List (List Nat)) (n b dsLen : Nat)
    (graw wnorm gnorm : List Nat)
    (hW : 0 < W)
    (hwn : normalizeIndices (draw (seed + epoch) N w) (totalSizeOf N W dl)
      dl = Except.ok wnorm)
    (hwlen : wnorm.length = totalSizeOf N W dl)
    (hg : groupIterRaw (pick (seed + epoch)) gi n b = Except.ok graw)
    (hgn : normalizeIndices graw (totalSizeOf dsLen W dl) dl =
      Except.ok gnorm)
    (hglen : gnorm.length = totalSizeOf dsLen W dl) :
    (∀ r, r < W → weightedIter draw seed epoch N r W w dl =
      Except.ok (pySliceStep wnorm r (totalSizeOf N W dl) W)) ∧
    reassemble W (totalSizeOf N W dl)
      (fun r => pySliceStep wnorm r (totalSizeOf N W dl) W) = wnorm ∧
    (∀ r, r < W → groupIter pick gi n b seed epoch dsLen r W dl =
      Except.ok (pySliceStep gnorm r (totalSizeOf dsLen W dl) W)) ∧
    reassemble W (totalSizeOf dsLen W dl)
      (fun r => pySliceStep gnorm r (totalSizeOf dsLen W dl) W) = gnorm ∧
    (∀ r k, r < W → k < numSamplesOf N W dl →
      (pySliceStep wnorm r (totalSizeOf N W dl) W).getD k 0 =
        wnorm.getD (r + k * W) 0) ∧
    (∀ r k r2 k2, r < W → r2 < W → r + k * W = r2 + k2 * W →
      r = r2 ∧ k = k2) := by
  refine ⟨?_, ?_, ?_, ?_, ?_, ?_⟩
  · intro r hr
    unfold weightedIter
    exact samplerPostProcess_ok _ _ r (numSamplesOf N W dl) W dl hW hr
      hwn hwlen
  · exact reassemble_strides wnorm (numSamplesOf N W dl) W hW hwlen
  · intro r hr
    unfold groupIter
    rw [hg]
    exact samplerPostProcess_ok _ _ r (numSamplesOf dsLen W dl) W dl hW hr
      hgn hglen
  · exact reassemble_strides gnorm (numSamplesOf dsLen W dl) W hW hglen
  · intro r k hr hk
    exact pySliceStep_getD wnorm (numSamplesOf N W dl) W r k hW hr hwlen hk
  · intro r k r2 k2 hr hr2 hh
    exact stride_pos_inj W r k r2 k2 hW hr hr2 hh

/-- Claim C1, witness: at `N = 10, worldSize = 3` (weighted, padding to 12)
and two groups of three with `nGroupsPerBatch = 2, batchSize = 2`, the
per-rank slices reassemble to the normalized lists. -/
theorem c1_witness :
    reassemble 3 (totalSizeOf 10 3 false)
      (fun r => pySliceStep (List.range 10 ++ [0, 1])
        r (totalSizeOf 10 3 false) 3) = List.range 10 ++ [0, 1] ∧
    reassemble 3 (totalSizeOf 6 3 false)
      (fun r => pySliceStep [0, 3, 0, 3, 0, 3]
        r (totalSizeOf 6 3 false) 3) = [0, 3, 0, 3, 0, 3] := by
  have h := c1_inverse_striding_reconstructs (fun _ n _ => List.range n)
    (fun _ => pickTake) 0 0 10 3 none false [[0, 1, 2], [3, 4, 5]] 2 2 6
    [0, 3, 0, 3, 0, 3] (List.range 10 ++ [0, 1]) [0, 3, 0, 3, 0, 3]
    (by decide) rfl rfl rfl rfl rfl
  exact ⟨h.2.1, h.2.2.2.1⟩

theorem pickContract_pickTake : PickContract pickTake := by
  constructor
  · intro s pop k
    by_cases h : k ≤ pop.length <;> simp [pickTake, h]
  · intro s pop k l hl
    by_cases h : k ≤ pop.length
    · simp only [pickTake, if_pos h] at hl
      injection hl with hl2
      subst hl2
      refine ⟨?_, (List.take_sublist k pop).subperm⟩
      rw [List.length_take]
      omega
    · simp [pickTake, h] at hl

theorem pickGroupMembers_ok (pick : Nat → List Nat → Nat → Option (List Nat))
    (gi : List (List Nat)) (k : Nat)
    (hc : PickContract pick)
    (hnd : ∀ l ∈ gi, l.Nodup)
    (hsz : ∀ l ∈ gi, k ≤ l.length) :
    ∀ gids : List Nat, ∀ s : Nat, (∀ g ∈ gids, g < gi.length) →
      ∃ out s2, pickGroupMembers pick gi k s gids = Except.ok (out, s2) ∧
        ∃ segs : List (List Nat), segs.length = gids.length ∧
          out = segs.flatten ∧
          ∀ i, i < gids.length →
            (segs.getD i []).length = k ∧ (segs.getD i []).Nodup ∧
            ∀ x ∈ segs.getD i [], x ∈ gi.getD (gids.getD i 0) [] := by
  intro gids
  induction gids with
  | nil =>
    intro s hin
    exact ⟨[], s, rfl, [], rfl, rfl,
      fun i hi => absurd hi (Nat.not_lt_zero i)⟩
  | cons gid gids2 ih =>
    intro s hin
    have hgid : gid < gi.length := hin gid (by simp)
    have hpop : gi.getD gid [] ∈ gi := by
      rw [List.getD_eq_getElem _ _ hgid]
      exact List.getElem_mem hgid
    have hk : k ≤ (gi.getD gid []).length := hsz _ hpop
    have hsome : (pick s (gi.getD gid []) k).isSome = true :=
      (hc.1 s (gi.getD gid []) k).mpr hk
    obtain ⟨l, hl⟩ := Option.isSome_iff_exists.mp hsome
    obtain ⟨hllen, hlsub⟩ := hc.2 s (gi.getD gid []) k l hl
    obtain ⟨out2, s2, hout2, segs2, hs2len, hs2flat, hs2props⟩ :=
      ih (s + 1) (fun g hg => hin g (by simp [hg]))
    have hsubset := hlsub.subset
    obtain ⟨l0, hperm, hsubl⟩ := hlsub
    have hlnodup : l.Nodup := hperm.nodup (List.Nodup.sublist hsubl (hnd _ hpop))
    refine ⟨l ++ out2, s2, ?_, l :: segs2, by simp [hs2len], by
      simp [hs2flat], ?_⟩
    · simp only [pickGroupMembers, hl, hout2]
    · intro i hi
      cases i with
      | zero =>
        refine ⟨by simpa using hllen, by simpa using hlnodup, ?_⟩
        intro x hx
        simp only [List.getD_cons_zero] at hx ⊢
        exact hsubset hx
      | succ i2 =>
        have hi2 : i2 < gids2.length := by simpa using hi
        simpa [List.getD_cons_succ] using hs2props i2 hi2

theorem groupBatches_ok (pick : Nat → List Nat → Nat → Option (List Nat))
    (gi : List (List Nat)) (n k : Nat)
    (hc : PickContract pick)
    (hnd : ∀ l ∈ gi, l.Nodup)
    (hsz : ∀ l ∈ gi, k ≤ l.length)
    (hn : n ≤ gi.length) :
    ∀ m s : Nat, ∃ out s2,
      groupBatches pick gi n k m s = Except.ok (out, s2) ∧
      ∃ batches : List (List Nat), batches.length = m ∧
        out = batches.flatten ∧
        ∀ batch ∈ batches, IsBalancedBatch gi n k batch := by
  intro m
  induction m with
  | zero =>
    intro s
    exact ⟨[], s, rfl, [], rfl, rfl, fun batch hb => absurd hb (by simp)⟩
  | succ m2 ih =>
    intro s
    have hsome : (pick s (List.range gi.length) n).isSome = true :=
      (hc.1 s (List.range gi.length) n).mpr (by simp [hn])
    obtain ⟨gids, hgids⟩ := Option.isSome_iff_exists.mp hsome
    obtain ⟨hglen2, hgsub⟩ := hc.2 s (List.range gi.length) n gids hgids
    have hgmem : ∀ g ∈ gids, g < gi.length := fun g hg =>
      List.mem_range.mp (hgsub.subset hg)
    have hgnodup : gids.Nodup := by
      obtain ⟨g0, hperm, hsubl⟩ := hgsub
      exact hperm.nodup (List.Nodup.sublist hsubl (List.nodup_range _))
    obtain ⟨batch, s1, hbatch, segs, hseglen, hsegflat, hsegprops⟩ :=
      pickGroupMembers_ok pick gi k hc hnd hsz gids (s + 1) hgmem
    obtain ⟨rest, s2, hrest, batches2, hblen, hbflat, hbprops⟩ := ih s1
    refine ⟨batch ++ rest, s2, ?_, batch :: batches2, by simp [hblen],
      by simp [hbflat], ?_⟩
    · simp only [groupBatches, hgids, hbatch, hrest]
    · intro bb hbb
      simp only [List.mem_cons] at hbb
      rcases hbb with hbb | hbb
      · subst hbb
        refine ⟨gids, segs, hglen2, hgnodup, hgmem, ?_, hsegflat, ?_⟩
        · rw [hseglen, hglen2]
        · intro i hi
          exact hsegprops i (by omega)
      · exact hbprops bb hbb

/-- Claim C5: the Group-Balanced Batch Policy asserts
`batchSize % nGroupsPerBatch == 0` at construction; its pre-stride index
list consists of `floor(totalGroupMembership / batchSize)` synthesized
batches, each a concatenation of segments from exactly `nGroupsPerBatch`
distinct groups chosen without replacement, every chosen group contributing
exactly `batchSize / nGroupsPerBatch` distinct member indices; and a
without-replacement draw from a group smaller than the requested count
fails the whole iteration with numpy's `ValueError` (the specification's
`InvalidArgument`). -/
theorem c5_group_balanced_batches
    (pick : Nat → List Nat → Nat → Option (List Nat))
    (gi : List (List Nat)) (n b : Nat)
    (hc : PickContract pick)
    (hnd : ∀ l ∈ gi, l.Nodup)
    (hn : n ≤ gi.length)
    (hsz : ∀ l ∈ gi, b / n ≤ l.length) :
    (∀ n2 b2 : Nat, 0 < n2 →
      ((groupInit n2 b2).isOk = true ↔ b2 % n2 = 0)) ∧
    (∃ raw, groupIterRaw pick gi n b = Except.ok raw ∧
      ∃ batches : List (List Nat),
        batches.length = (gi.map List.length).sum / b ∧
        raw = batches.flatten ∧
        ∀ batch ∈ batches, IsBalancedBatch gi n (b / n) batch) ∧
    (∀ gi2 : List (List Nat), ∀ g0 : Nat, ∀ gs : List Nat,
      pick 0 (List.range gi2.length) n = some (g0 :: gs) →
      (gi2.getD g0 []).length < b / n →
      1 ≤ (gi2.map List.length).sum / b →
      groupIterRaw pick gi2 n b = Except.error "ValueError") := by
  refine ⟨?_, ?_, ?_⟩
  · intro n2 b2 hpos
    by_cases h : b2 % n2 = 0 <;> simp [groupInit, h, Except.isOk, Except.toBool]
  · obtain ⟨out, s2, hout, batches, hblen, hbflat, hbprops⟩ :=
      groupBatches_ok pick gi n (b / n) hc hnd hsz hn
        ((gi.map List.length).sum / b) 0
    refine ⟨out, ?_, batches, hblen, hbflat, hbprops⟩
    simp only [groupIterRaw, hout]
  · intro gi2 g0 gs hpick hsmall hge
    obtain ⟨m, hm⟩ : ∃ m, (gi2.map List.length).sum / b = m + 1 :=
      ⟨(gi2.map List.length).sum / b - 1, by omega⟩
    have hnone : pick 1 (gi2.getD g0 []) (b / n) = none := by
      cases h2 : pick 1 (gi2.getD g0 []) (b / n) with
      | none => rfl
      | some val =>
        exfalso
        have hle : b / n ≤ (gi2.getD g0 []).length :=
          (hc.1 1 (gi2.getD g0 []) (b / n)).mp (by rw [h2]; rfl)
        omega
    simp only [groupIterRaw, hm, groupBatches, hpick, pickGroupMembers,
      hnone]

/-- Claim C5, witness: three groups of three distinct members each,
`nGroupsPerBatch = 2`, `batchSize = 4`: the theorem with the concrete
chooser `pickTake` yields the balanced-batch decomposition. -/
theorem c5_witness :
    ∃ raw, groupIterRaw pickTake [[0, 1, 2], [3, 4, 5], [6, 7, 8]] 2 4 =
        Except.ok raw ∧
      ∃ batches : List (List Nat),
        batches.length =
          ([[0, 1, 2], [3, 4, 5], [6, 7, 8]].map List.length).sum / 4 ∧
        raw = batches.flatten ∧
        ∀ batch ∈ batches,
          IsBalancedBatch [[0, 1, 2], [3, 4, 5], [6, 7, 8]] 2 (4 / 2) batch :=
  (c5_group_balanced_batches pickTake [[0, 1, 2], [3, 4, 5], [6, 7, 8]] 2 4
    pickContract_pickTake (by decide) (by decide) (by decide)).2.1

end RRL
